import Mathlib

/-!
Verification of the TDDC repository's date-boundary resolution and
bucket-reclassification engine.

The definitions below are shallow embeddings of the Python source:

* `pickBoundaryDate` embeds `pick_boundary_date` (src/query_and_aggregate.py,
  lines 47-66).  Dates are modelled as integers (day numbers); only their
  linear order matters to the algorithm.
* `nearestIndexByDate` embeds `nearest_index_by_date`
  (src/prog2_query_and_overlay.py, lines 35-47).
* `inferBucketRange` embeds `infer_bucket_range`
  (src/program3_analyze_and_plot.py, lines 54-71), including the comma /
  `萬` normalisation and the three anchored regular expressions.
* `classifyBucket` embeds `classify_bucket`
  (src/program3_analyze_and_plot.py, lines 74-99).
* `reduceRow` / `reduceRowOpt` embed the column-wise
  `df.groupby(col_to_cat, axis=1).sum()` of `analyze`'s inner `transform`
  (src/program3_analyze_and_plot.py, lines 154-166); `reduceRowOpt` models
  pandas' NaN handling (`skipna=True`, `min_count=0`: an all-NaN group sums
  to 0).  Sorting the grouped columns (`sort_index(axis=1)`) permutes
  columns only and is irrelevant to the summation facts proved here.
* `pivotCell` / `fillna0` embed the pivot plus `.fillna(0)` of
  `parse_tdcc_data` (src/program2_data_query.py, lines 198-209).
* `specRejected` embeds the pre-load validation of `main`
  (src/program3_analyze_and_plot.py, lines 205-213).

Numeric values are modelled as rationals; Python's `float('inf')` upper
bounds are modelled as `Option ℚ` with `none` standing for `+∞`.
-/

/-- Embeds `pick_boundary_date(available, target, prefer_ge)` from
src/query_and_aggregate.py.  `available` is the (sorted) list of archive
dates; the result is the chosen date together with the warning flag. -/
def pickBoundaryDate (available : List Int) (target : Int) (preferGe : Bool) :
    Option Int × Bool :=
  if available = [] then (none, false)
  else if preferGe then
    let ge := available.filter (fun d => target ≤ d)
    if ge ≠ [] then (ge.head?, false)
    else
      let le := available.reverse.filter (fun d => d ≤ target)
      if le ≠ [] then (le.head?, true)
      else (available.head?, true)
  else
    let le := available.filter (fun d => d ≤ target)
    if le ≠ [] then (le.getLast?, false)
    else
      let ge := available.filter (fun d => target ≤ d)
      if ge ≠ [] then (ge.head?, true)
      else (available.getLast?, true)

/-- Embeds `nearest_index_by_date(dates, target, prefer_ge)` from
src/prog2_query_and_overlay.py: with `prefer_ge` it returns the first index
whose date is `≥ target`, defaulting to the last index; otherwise the last
index whose date is `≤ target`, defaulting to index 0. -/
def nearestIndexByDate (dates : List Int) (target : Int) (preferGe : Bool) :
    Option Nat :=
  if dates = [] then none
  else if preferGe then
    match dates.findIdx? (fun d => target ≤ d) with
    | some i => some i
    | none => some (dates.length - 1)
  else
    match dates.reverse.findIdx? (fun d => d ≤ target) with
    | some i => some (dates.length - 1 - i)
    | none => some 0

/-- Embeds the `CategorySpec` dataclass of src/program3_analyze_and_plot.py:
`mode` is `"quantity"`, `"amount"` or `"custom"`, `price` an optional stock
price and `custom` an optional list of inclusive share ranges. -/
structure CategorySpec where
  mode : String
  price : Option ℚ := none
  custom : Option (List (ℚ × ℚ)) := none

/-- Digits accumulated into a natural number (the integer part of a parsed
numeric literal). -/
def digitsVal (ds : List Char) : ℕ :=
  ds.foldl (fun a c => a * 10 + (c.toNat - '0'.toNat)) 0

/-- Value of `\d+(\.\d+)?` from its integer-part and fraction-part digits,
as an exact rational (the Python code converts with `float`). -/
def numVal (ds fs : List Char) : ℚ :=
  if fs = [] then (digitsVal ds : ℚ)
  else (digitsVal ds : ℚ) + (digitsVal fs : ℚ) / (10 : ℚ) ^ fs.length

/-- Parse a leading `\d+(\.\d+)?` from a character list, returning its value
and the unconsumed suffix.  Mirrors the greedy regex: if a dot is not
followed by a digit, the fractional group fails and the dot is left
unconsumed. -/
def parseNumber? (cs : List Char) : Option (ℚ × List Char) :=
  let p := cs.span Char.isDigit
  if p.1 = [] then none
  else
    match p.2 with
    | '.' :: rest2 =>
      let q := rest2.span Char.isDigit
      if q.1 = [] then some (numVal p.1 [], p.2)
      else some (numVal p.1 q.1, q.2)
    | _ => some (numVal p.1 [], p.2)

/-- Match the anchored pattern `^>=?\s*(\d+(?:\.\d+)?)$` of
`infer_bucket_range`; a match yields the open-ended range `(v, ∞)`. -/
def matchGE? (cs : List Char) : Option (ℚ × Option ℚ) :=
  match cs with
  | '>' :: rest =>
    let rest1 := match rest with
      | '=' :: r => r
      | _ => rest
    match parseNumber? (rest1.dropWhile fun c => c.isWhitespace) with
    | some (v, []) => some (v, none)
    | _ => none
  | _ => none

/-- Match the anchored pattern
`^(\d+(?:\.\d+)?)\s*[-~–]\s*(\d+(?:\.\d+)?)$` of `infer_bucket_range`. -/
def matchDash? (cs : List Char) : Option (ℚ × ℚ) :=
  match parseNumber? cs with
  | some (a, rest) =>
    match rest.dropWhile (fun c => c.isWhitespace) with
    | c :: rest2 =>
      if c = '-' ∨ c = '~' ∨ c = '–' then
        match parseNumber? (rest2.dropWhile fun ch => ch.isWhitespace) with
        | some (b, []) => some (a, b)
        | _ => none
      else none
    | [] => none
  | none => none

/-- Match the anchored pattern `^(\d+(?:\.\d+)?)$` of
`infer_bucket_range` (a bare number). -/
def matchBare? (cs : List Char) : Option ℚ :=
  match parseNumber? cs with
  | some (v, []) => some v
  | _ => none

/-- Python `str.replace(old, new)` for a single-character pattern: every
occurrence of `c` is replaced by `rep`. -/
def replaceChar (c : Char) (rep : List Char) (cs : List Char) : List Char :=
  cs.flatMap fun x => if x = c then rep else [x]

/-- Python `str.strip()`: leading and trailing whitespace removed. -/
def stripWS (cs : List Char) : List Char :=
  (((cs.dropWhile fun c => c.isWhitespace).reverse.dropWhile
    fun c => c.isWhitespace)).reverse

/-- Embeds `infer_bucket_range(bucket_label)` from
src/program3_analyze_and_plot.py: commas are removed, `萬` expands to
`0000`, the label is stripped, then the `>=`, `A-B` and bare-number
patterns are tried in order; anything else yields `(0.0, 0.0)`.  `none` in
the second component stands for `float('inf')`. -/
def inferBucketRange (bucketLabel : String) : ℚ × Option ℚ :=
  let lbl := stripWS (replaceChar '萬' "0000".data
    (replaceChar ',' [] bucketLabel.data))
  match matchGE? lbl with
  | some r => r
  | none =>
    match matchDash? lbl with
    | some (a, b) => (a, some b)
    | none =>
      match matchBare? lbl with
      | some v => (v, some v)
      | none => (0, some 0)

/-- `high ≤ b` for a possibly infinite upper bound: Python's
`float('inf') <= b` is `False` for every finite `b`. -/
def highLeB (high : Option ℚ) (b : ℚ) : Bool :=
  match high with
  | some h => decide (h ≤ b)
  | none => false

/-- The containment test of `classify_bucket`'s custom loop:
`(low >= c_low) and (high <= c_high)`. -/
def bandContains (c : ℚ × ℚ) (low : ℚ) (high : Option ℚ) : Bool :=
  decide (c.1 ≤ low) && highLeB high c.2

/-- The custom-band loop of `classify_bucket`: the caller-supplied ranges
are tested in order, returning `band_{idx+1}` on the first containment and
`band_other` when none matches. -/
def findBand (ranges : List (ℚ × ℚ)) (idx : ℕ) (low : ℚ) (high : Option ℚ) :
    String :=
  match ranges with
  | [] => "band_other"
  | c :: rest =>
    if bandContains c low high then "band_" ++ toString (idx + 1)
    else findBand rest (idx + 1) low high

/-- Embeds `classify_bucket(range_tuple, spec)` from
src/program3_analyze_and_plot.py.  Note the amount branch: `spec.price or
0.0` turns a missing (or zero) price into `0.0`, and an infinite `high` is
replaced by `low` before multiplying. -/
def classifyBucket (rangeTuple : ℚ × Option ℚ) (spec : CategorySpec) :
    String :=
  let low := rangeTuple.1
  let high := rangeTuple.2
  if spec.mode = "quantity" then
    if highLeB high 400000 then "retail"
    else if 1000000 < low then "whale"
    else "mid"
  else if spec.mode = "amount" then
    let price := spec.price.getD 0
    let lowAmt := low * price
    let highAmt := (match high with
      | some h => h
      | none => low) * price
    if highAmt < 5000000 then "retail"
    else if 30000000 < lowAmt then "whale"
    else if 5000000 ≤ highAmt ∧ highAmt ≤ 10000000 then "small_mid"
    else "mid"
  else if spec.mode = "custom" then
    match spec.custom with
    | some (c :: rest) => findBand (c :: rest) 0 low high
    | _ => "unknown"
  else "unknown"

/-- The 15 canonical TDCC bucket labels, as listed in
`tdcc_ranges` of src/program3_data_analysis.py. -/
def canonicalLabels : List String :=
  ["1-999", "1,000-5,000", "5,001-10,000", "10,001-15,000",
   "15,001-20,000", "20,001-30,000", "30,001-40,000", "40,001-50,000",
   "50,001-100,000", "100,001-200,000", "200,001-400,000",
   "400,001-600,000", "600,001-800,000", "800,001-1,000,000",
   "1,000,001以上"]

/-- Modelled from the spec (§4.3 mode `amount`): both bounds are multiplied
by the price and an open-ended `high = ∞` keeps an infinite monetary upper
bound; the same dollar thresholds as `classify_bucket` are then applied,
with an infinite upper amount failing every finite comparison.  Used only
to compare the spec's rule with the code's. -/
def specAmountClassify (rangeTuple : ℚ × Option ℚ) (price : ℚ) : String :=
  let lowAmt := rangeTuple.1 * price
  match rangeTuple.2.map (· * price) with
  | some highAmt =>
    if highAmt < 5000000 then "retail"
    else if 30000000 < lowAmt then "whale"
    else if 5000000 ≤ highAmt ∧ highAmt ≤ 10000000 then "small_mid"
    else "mid"
  | none =>
    if 30000000 < lowAmt then "whale" else "mid"

/-- Sum of the values of a date row (column label paired with value). -/
def sumRow (row : List (String × ℚ)) : ℚ :=
  (row.map fun p => p.2).sum

/-- Embeds `df.groupby(col_to_cat, axis=1).sum()` from `analyze`'s inner
`transform` (src/program3_analyze_and_plot.py, lines 154-166) on one date
row with no missing values: each column is assigned the category
`f label`, and each category's cell is the sum of its columns' values. -/
def reduceRow (row : List (String × ℚ)) (f : String → String) :
    List (String × ℚ) :=
  ((row.map fun p => f p.1).dedup).map fun c =>
    (c, sumRow (row.filter fun p => f p.1 = c))

/-- The same grouped sum on a row whose cells may be missing (`none` models
NaN).  pandas sums with `skipna=True` and `min_count=0`, so a category's
cell is the sum of its present values — `0`, not NaN, when every
contributing column is missing. -/
def reduceRowOpt (row : List (String × Option ℚ)) (f : String → String) :
    List (String × ℚ) :=
  ((row.map fun p => f p.1).dedup).map fun c =>
    (c, ((row.filter fun p => f p.1 = c).filterMap fun p => p.2).sum)

/-- Embeds the pivot of `parse_tdcc_data` (src/program2_data_query.py,
lines 198-209): the cell for a date and level is the value of the matching
record, if any. -/
def pivotCell (records : List (Int × String × ℚ)) (d : Int) (lvl : String) :
    Option ℚ :=
  (records.find? fun r => r.1 = d ∧ r.2.1 = lvl).map fun r => r.2.2

/-- `fillna(0)` applied to one pivot cell, as in `parse_tdcc_data`. -/
def fillna0 (cell : Option ℚ) : ℚ :=
  cell.getD 0

/-- Embeds the pre-load validation of `main`
(src/program3_analyze_and_plot.py, lines 205-213): the request is rejected
(return code 1, before `read_program2_excel` runs) exactly when the mode is
`amount` and the price is missing or non-positive.  No other validation
happens before table loading. -/
def specRejected (spec : CategorySpec) : Bool :=
  spec.mode == "amount" &&
    (match spec.price with
     | none => true
     | some p => decide (p ≤ 0))

/-- A list sorted in non-decreasing order has its head below every member. -/
theorem head_le_of_sorted {l : List Int} (h : List.Sorted (· ≤ ·) l)
    {d : Int} (hd : l.head? = some d) : ∀ e ∈ l, d ≤ e := by
  cases l with
  | nil => simp at hd
  | cons a t =>
    simp only [List.head?_cons, Option.some.injEq] at hd
    subst hd
    rw [List.sorted_cons] at h
    intro e he
    rcases List.mem_cons.mp he with rfl | ht
    · exact le_refl _
    · exact h.1 e ht

/-- A list sorted in non-decreasing order has its last element above every
member. -/
theorem getLast_ge_of_sorted {l : List Int} (h : List.Sorted (· ≤ ·) l)
    {d : Int} (hd : l.getLast? = some d) : ∀ e ∈ l, e ≤ d := by
  induction l with
  | nil => simp at hd
  | cons a t ih =>
    cases t with
    | nil =>
      simp only [List.getLast?_singleton, Option.some.injEq] at hd
      subst hd
      intro e he
      rcases List.mem_singleton.mp he with rfl
      exact le_refl _
    | cons b t2 =>
      rw [List.getLast?_cons_cons] at hd
      rw [List.sorted_cons] at h
      intro e he
      rcases List.mem_cons.mp he with rfl | ht
      · exact le_trans (h.1 b (List.mem_cons_self _ _)) (ih h.2 hd b (List.mem_cons_self _ _))
      · exact ih h.2 hd e ht

/-- C1: For every non-empty sorted list of available dates and every
requested start date, `pick_boundary_date(..., prefer_ge=True)` selects the
smallest available date `≥` the requested start with no warning; only when
no such date exists does it fall back to the largest available date `≤` the
requested start and set the warning flag; and an exact match is used
directly with no warning. -/
theorem pick_start_resolution (available : List Int) (target : Int)
    (hne : available ≠ []) (hsort : List.Sorted (· ≤ ·) available) :
    ((∃ d ∈ available, target ≤ d ∧
        pickBoundaryDate available target true = (some d, false) ∧
        ∀ e ∈ available, target ≤ e → d ≤ e) ∨
      ((∀ e ∈ available, e < target) ∧
        ∃ d ∈ available,
          pickBoundaryDate available target true = (some d, true) ∧
          ∀ e ∈ available, e ≤ d)) ∧
    (target ∈ available →
      pickBoundaryDate available target true = (some target, false)) := by
  by_cases hge : available.filter (fun d => target ≤ d) = []
  · -- no available date is ≥ target: the fallback branch is taken
    have hall : ∀ e ∈ available, e < target := by
      intro e he
      have := List.filter_eq_nil_iff.mp hge e he
      simpa using lt_of_not_le (by simpa using this)
    have hfe : available.reverse.filter (fun d => d ≤ target) = available.reverse := by
      apply List.filter_eq_self.mpr
      intro a ha
      exact decide_eq_true (le_of_lt (hall a (List.mem_reverse.mp ha)))
    have hres : pickBoundaryDate available target true =
        (available.getLast?, true) := by
      unfold pickBoundaryDate
      rw [if_neg hne, if_pos rfl]
      simp only [hge, hfe]
      rw [if_neg (by simp), if_pos (by simpa using hne)]
      rw [List.head?_reverse]
    obtain ⟨d, hd⟩ : ∃ d, available.getLast? = some d := by
      cases hlast : available.getLast? with
      | none => exact absurd (List.getLast?_eq_none_iff.mp hlast) hne
      | some d => exact ⟨d, rfl⟩
    constructor
    · right
      refine ⟨hall, d, ?_, by rw [hres, hd], getLast_ge_of_sorted hsort hd⟩
      exact List.mem_of_getLast?_eq_some hd
    · intro hmem
      exact absurd (le_refl target) (not_le.mpr (hall target hmem))
  · -- some available date is ≥ target: forward preference
    obtain ⟨d, hd⟩ : ∃ d, (available.filter (fun d => target ≤ d)).head? = some d := by
      cases hh : (available.filter (fun d => target ≤ d)).head? with
      | none => exact absurd (List.head?_eq_none_iff.mp hh) hge
      | some d => exact ⟨d, rfl⟩
    have hdmem : d ∈ available.filter (fun d => target ≤ d) :=
      List.mem_of_mem_head? (by rw [hd]; rfl)
    have hres : pickBoundaryDate available target true = (some d, false) := by
      unfold pickBoundaryDate
      rw [if_neg hne, if_pos rfl, if_pos (by simpa using hge)]
      rw [hd]
    have hmin : ∀ e ∈ available, target ≤ e → d ≤ e := by
      intro e he hte
      exact head_le_of_sorted (hsort.filter _) hd e
        (List.mem_filter.mpr ⟨he, decide_eq_true hte⟩)
    have hdav : d ∈ available := (List.mem_filter.mp hdmem).1
    have hdge : target ≤ d := by
      have := (List.mem_filter.mp hdmem).2
      simpa using this
    constructor
    · exact Or.inl ⟨d, hdav, hdge, hres, hmin⟩
    · intro hmem
      have h1 : d ≤ target := hmin target hmem (le_refl _)
      have h2 : d = target := le_antisymm h1 hdge
      exact h2 ▸ hres

/-- Witness for `pick_start_resolution`: with available dates 1, 8, 15 and
requested start 3, the resolver picks 8 with no warning. -/
theorem pick_start_resolution_witness :
    (([1, 8, 15] : List Int) ≠ []) ∧
    List.Sorted (· ≤ ·) ([1, 8, 15] : List Int) ∧
    (((∃ d ∈ ([1, 8, 15] : List Int), (3 : Int) ≤ d ∧
        pickBoundaryDate [1, 8, 15] 3 true = (some d, false) ∧
        ∀ e ∈ ([1, 8, 15] : List Int), (3 : Int) ≤ e → d ≤ e) ∨
      ((∀ e ∈ ([1, 8, 15] : List Int), e < (3 : Int)) ∧
        ∃ d ∈ ([1, 8, 15] : List Int),
          pickBoundaryDate [1, 8, 15] 3 true = (some d, true) ∧
          ∀ e ∈ ([1, 8, 15] : List Int), e ≤ d)) ∧
    ((3 : Int) ∈ ([1, 8, 15] : List Int) →
      pickBoundaryDate [1, 8, 15] 3 true = (some 3, false))) :=
  ⟨by decide, by decide, pick_start_resolution [1, 8, 15] 3 (by decide) (by decide)⟩

/-- C2 (amended): in `pick_boundary_date(..., prefer_ge=False)` — the end
resolver of src/query_and_aggregate.py — the actual end is the largest
available date `≤` the requested end with no warning; only when no such
date exists does it fall back to the smallest available date `≥` the
requested end with the warning flag set, so a warning is emitted exactly
when that fallback is taken.  (The `prog2_query_and_overlay.py` driver
instead resolves the end with forward preference; see the
counterexample.) -/
theorem pick_end_resolution (available : List Int) (target : Int)
    (hne : available ≠ []) (hsort : List.Sorted (· ≤ ·) available) :
    (∃ d ∈ available, d ≤ target ∧
        pickBoundaryDate available target false = (some d, false) ∧
        ∀ e ∈ available, e ≤ target → e ≤ d) ∨
      ((∀ e ∈ available, target < e) ∧
        ∃ d ∈ available,
          pickBoundaryDate available target false = (some d, true) ∧
          ∀ e ∈ available, d ≤ e) := by
  by_cases hle : available.filter (fun d => d ≤ target) = []
  · -- no available date is ≤ target: the fallback branch is taken
    have hall : ∀ e ∈ available, target < e := by
      intro e he
      have := List.filter_eq_nil_iff.mp hle e he
      simpa using lt_of_not_le (by simpa using this)
    have hfe : available.filter (fun d => target ≤ d) = available := by
      apply List.filter_eq_self.mpr
      intro a ha
      exact decide_eq_true (le_of_lt (hall a ha))
    obtain ⟨d, hd⟩ : ∃ d, available.head? = some d := by
      cases hh : available.head? with
      | none => exact absurd (List.head?_eq_none_iff.mp hh) hne
      | some d => exact ⟨d, rfl⟩
    have hres : pickBoundaryDate available target false = (some d, true) := by
      unfold pickBoundaryDate
      rw [if_neg hne, if_neg (by simp)]
      simp only [hle, hfe]
      rw [if_neg (by simp), if_pos (by simpa using hne), hd]
    right
    exact ⟨hall, d, List.mem_of_mem_head? (by rw [hd]; rfl),
      hres, head_le_of_sorted hsort hd⟩
  · -- some available date is ≤ target: backward preference
    obtain ⟨d, hd⟩ : ∃ d, (available.filter (fun d => d ≤ target)).getLast? = some d := by
      cases hh : (available.filter (fun d => d ≤ target)).getLast? with
      | none => exact absurd (List.getLast?_eq_none_iff.mp hh) hle
      | some d => exact ⟨d, rfl⟩
    have hdmem : d ∈ available.filter (fun d => d ≤ target) :=
      List.mem_of_getLast?_eq_some hd
    have hres : pickBoundaryDate available target false = (some d, false) := by
      unfold pickBoundaryDate
      rw [if_neg hne, if_neg (by simp), if_pos (by simpa using hle), hd]
    have hmax : ∀ e ∈ available, e ≤ target → e ≤ d := by
      intro e he hte
      exact getLast_ge_of_sorted (hsort.filter _) hd e
        (List.mem_filter.mpr ⟨he, decide_eq_true hte⟩)
    have hdav : d ∈ available := (List.mem_filter.mp hdmem).1
    have hdle : d ≤ target := by
      have := (List.mem_filter.mp hdmem).2
      simpa using this
    exact Or.inl ⟨d, hdav, hdle, hres, hmax⟩

/-- Witness for `pick_end_resolution`: with available dates 1, 8, 15 and
requested end 10, the resolver picks 8 with no warning. -/
theorem pick_end_resolution_witness :
    (([1, 8, 15] : List Int) ≠ []) ∧
    List.Sorted (· ≤ ·) ([1, 8, 15] : List Int) ∧
    ((∃ d ∈ ([1, 8, 15] : List Int), d ≤ (10 : Int) ∧
        pickBoundaryDate [1, 8, 15] 10 false = (some d, false) ∧
        ∀ e ∈ ([1, 8, 15] : List Int), e ≤ (10 : Int) → e ≤ d) ∨
      ((∀ e ∈ ([1, 8, 15] : List Int), (10 : Int) < e) ∧
        ∃ d ∈ ([1, 8, 15] : List Int),
          pickBoundaryDate [1, 8, 15] 10 false = (some d, true) ∧
          ∀ e ∈ ([1, 8, 15] : List Int), d ≤ e)) :=
  ⟨by decide, by decide, pick_end_resolution [1, 8, 15] 10 (by decide) (by decide)⟩

/-- C2 counterexample: the `prog2_query_and_overlay.py` driver resolves the
requested end 10 against available dates 1, 8, 15 by calling
`nearest_index_by_date(dates, end, prefer_ge=True)`, which selects index 2,
i.e. date 15 — not the largest available date `≤ 10` (which is 8, and does
exist) — so the claim's end-resolution rule fails on that variant. -/
theorem overlay_end_resolution_counterexample :
    nearestIndexByDate [1, 8, 15] 10 true = some 2 ∧
    ([1, 8, 15] : List Int).getD 2 0 = 15 ∧
    ¬ ((15 : Int) ≤ 10) ∧
    (8 : Int) ∈ ([1, 8, 15] : List Int) ∧ (8 : Int) ≤ 10 := by
  decide
/-- In quantity mode `classify_bucket` always answers one of the three
share-count categories, whatever the range. -/
theorem classifyBucket_quantity_cases (r : ℚ × Option ℚ) (p : Option ℚ)
    (c : Option (List (ℚ × ℚ))) :
    classifyBucket r ⟨"quantity", p, c⟩ = "retail" ∨
    classifyBucket r ⟨"quantity", p, c⟩ = "whale" ∨
    classifyBucket r ⟨"quantity", p, c⟩ = "mid" := by
  unfold classifyBucket
  rw [if_pos rfl]
  split_ifs <;> simp

/-- In amount mode `classify_bucket` always answers one of the four
monetary categories, whatever the range and price. -/
theorem classifyBucket_amount_cases (r : ℚ × Option ℚ) (p : Option ℚ)
    (c : Option (List (ℚ × ℚ))) :
    classifyBucket r ⟨"amount", p, c⟩ = "retail" ∨
    classifyBucket r ⟨"amount", p, c⟩ = "whale" ∨
    classifyBucket r ⟨"amount", p, c⟩ = "small_mid" ∨
    classifyBucket r ⟨"amount", p, c⟩ = "mid" := by
  unfold classifyBucket
  rw [if_neg (show ¬ (("amount" : String) = "quantity") by decide), if_pos rfl]
  dsimp only
  split_ifs <;> simp

/-- C10: calling `classify_bucket` in amount mode with a missing or zero
price never fails: `spec.price or 0.0` makes both monetary bounds zero, so
every bucket — including the open-ended one — lands below the 5,000,000
retail threshold and is classified `"retail"`. -/
theorem amount_mode_zero_price_all_retail (low : ℚ) (high : Option ℚ)
    (c : Option (List (ℚ × ℚ))) :
    classifyBucket (low, high) ⟨"amount", none, c⟩ = "retail" ∧
    classifyBucket (low, high) ⟨"amount", some 0, c⟩ = "retail" := by
  constructor <;>
  · unfold classifyBucket
    rw [if_neg (show ¬ (("amount" : String) = "quantity") by decide), if_pos rfl]
    dsimp only
    rw [if_pos (by cases high <;> norm_num)]
unseal Rat.mul in
/-- C5 counterexample: at price 1 (a positive price) the open-ended
1,000,001+ bucket is classified `"retail"` by `classify_bucket`, because
the code substitutes `low` for the infinite upper bound
(`high if high != float("inf") else low`), giving the finite upper amount
1,000,001 < 5,000,000; under the spec's rule (infinite upper amount, see
`specAmountClassify`) the bucket would be `"mid"`. -/
theorem amount_open_bucket_counterexample :
    classifyBucket (1000001, none) ⟨"amount", some 1, none⟩ = "retail" ∧
    specAmountClassify (1000001, none) 1 = "mid" ∧
    ("retail" : String) ≠ "mid" ∧ (0 : ℚ) < 1 := by
  decide

/-- C5 (amended): in amount mode `classify_bucket` multiplies both bounds
by the price, except that the open-ended bucket's infinite upper bound is
replaced by its `low` before multiplying — it is classified exactly like
the degenerate bucket `(low, low)`, with the finite upper amount
`low × price`, never an infinite one.  A finite bucket's category is then
decided by the dollar thresholds in the code's order: retail iff the upper
amount is below 5,000,000; whale iff not retail and the lower amount
exceeds 30,000,000; small-mid iff not retail, not whale and the upper
amount is at most 10,000,000; mid otherwise. -/
theorem amount_mode_characterization (low h price : ℚ) :
    (classifyBucket (low, none) ⟨"amount", some price, none⟩ =
      classifyBucket (low, some low) ⟨"amount", some price, none⟩) ∧
    (classifyBucket (low, some h) ⟨"amount", some price, none⟩ = "retail" ↔
      h * price < 5000000) ∧
    (classifyBucket (low, some h) ⟨"amount", some price, none⟩ = "whale" ↔
      ¬ h * price < 5000000 ∧ 30000000 < low * price) ∧
    (classifyBucket (low, some h) ⟨"amount", some price, none⟩ = "small_mid" ↔
      ¬ h * price < 5000000 ∧ ¬ 30000000 < low * price ∧
        h * price ≤ 10000000) ∧
    (classifyBucket (low, some h) ⟨"amount", some price, none⟩ = "mid" ↔
      ¬ h * price < 5000000 ∧ ¬ 30000000 < low * price ∧
        ¬ h * price ≤ 10000000) := by
  refine ⟨rfl, ?_, ?_, ?_, ?_⟩ <;>
  · unfold classifyBucket
    rw [if_neg (show ¬ (("amount" : String) = "quantity") by decide), if_pos rfl]
    dsimp only
    split_ifs with h1 h2 h3 <;> simp_all
/-- When no caller-supplied range passes the containment test, the custom
loop returns `band_other`. -/
theorem findBand_no_match (low : ℚ) (high : Option ℚ) :
    ∀ (cs : List (ℚ × ℚ)) (idx : ℕ),
      (∀ p ∈ cs, bandContains p low high = false) →
      findBand cs idx low high = "band_other" := by
  intro cs
  induction cs with
  | nil => intro idx _; rfl
  | cons c rest ih =>
    intro idx hall
    unfold findBand
    rw [if_neg (by rw [hall c (List.mem_cons_self _ _)]; simp)]
    exact ih (idx + 1) fun p hp => hall p (List.mem_cons_of_mem _ hp)

/-- The custom loop returns the band of the first range that passes the
containment test, numbered from `idx + 1`. -/
theorem findBand_first_match (low : ℚ) (high : Option ℚ) :
    ∀ (cs : List (ℚ × ℚ)) (idx i : ℕ), i < cs.length →
      bandContains (cs.getD i (0, 0)) low high = true →
      (∀ j, j < i → bandContains (cs.getD j (0, 0)) low high = false) →
      findBand cs idx low high = "band_" ++ toString (idx + i + 1) := by
  intro cs
  induction cs with
  | nil => intro idx i hi; simp at hi
  | cons c rest ih =>
    intro idx i hi hmatch hbefore
    cases i with
    | zero =>
      simp only [List.getD_cons_zero] at hmatch
      unfold findBand
      rw [if_pos hmatch]
    | succ i2 =>
      have h0 : bandContains c low high = false := by
        have := hbefore 0 (Nat.succ_pos i2)
        simpa using this
      unfold findBand
      rw [if_neg (by rw [h0]; simp)]
      have := ih (idx + 1) i2 (by simpa using Nat.lt_of_succ_lt_succ hi)
        (by simpa using hmatch)
        (fun j hj => by simpa using hbefore (j + 1) (Nat.succ_lt_succ hj))
      rw [this]
      have harith : idx + 1 + i2 + 1 = idx + (i2 + 1) + 1 := by omega
      rw [harith]

/-- C6: in custom mode, the caller-supplied ranges are tested in their
given order; a bucket goes to the first range whose bounds fully contain
its `[low, high]` interval (`low ≥ c_low` and `high ≤ c_high`), and to the
sentinel `band_other` when no range contains it. -/
theorem custom_mode_first_containment (low : ℚ) (high : Option ℚ)
    (cs : List (ℚ × ℚ)) (hne : cs ≠ []) :
    (∀ i, i < cs.length →
      bandContains (cs.getD i (0, 0)) low high = true →
      (∀ j, j < i → bandContains (cs.getD j (0, 0)) low high = false) →
      classifyBucket (low, high) ⟨"custom", none, some cs⟩ =
        "band_" ++ toString (i + 1)) ∧
    ((∀ p ∈ cs, bandContains p low high = false) →
      classifyBucket (low, high) ⟨"custom", none, some cs⟩ = "band_other") := by
  cases cs with
  | nil => exact absurd rfl hne
  | cons c rest =>
    have hcb : classifyBucket (low, high) ⟨"custom", none, some (c :: rest)⟩ =
        findBand (c :: rest) 0 low high := by
      unfold classifyBucket
      rw [if_neg (show ¬ (("custom" : String) = "quantity") by decide),
        if_neg (show ¬ (("custom" : String) = "amount") by decide),
        if_pos rfl]
    constructor
    · intro i hi hmatch hbefore
      rw [hcb]
      have := findBand_first_match low high (c :: rest) 0 i hi hmatch hbefore
      simpa using this
    · intro hall
      rw [hcb]
      exact findBand_no_match low high (c :: rest) 0 hall

/-- Witness for `custom_mode_first_containment`: the bucket `[600, 900]` is
contained in both ranges `[1, 1000]` and `[500, 2000]`; the first one wins
and the bucket is classified `band_1`. -/
theorem custom_mode_first_containment_witness :
    (([((1 : ℚ), (1000 : ℚ)), (500, 2000)] : List (ℚ × ℚ)) ≠ []) ∧
    bandContains (((1 : ℚ), (1000 : ℚ))) 600 (some 900) = true ∧
    classifyBucket (600, some 900)
      ⟨"custom", none, some [(1, 1000), (500, 2000)]⟩ =
        "band_" ++ toString (0 + 1) :=
  ⟨by decide, by decide,
    (custom_mode_first_containment 600 (some 900) [(1, 1000), (500, 2000)]
      (by decide)).1 0 (by decide) (by decide)
      (fun j hj => absurd hj (Nat.not_lt_zero j))⟩
/-- A custom band name (`band_` followed by a number) is never the
`unknown` sentinel and never empty. -/
theorem band_name_ne (n : ℕ) :
    ("band_" ++ toString n) ≠ "unknown" ∧ ("band_" ++ toString n) ≠ "" := by
  constructor <;>
  · intro heq
    have h2 := congrArg String.data heq
    rw [String.data_append] at h2
    simp only [List.cons_append, List.nil_append, show "band_".data =
      ['b', 'a', 'n', 'd', '_'] from rfl] at h2
    simp at h2

/-- The custom loop only ever answers `band_other` or a numbered band. -/
theorem findBand_cases (low : ℚ) (high : Option ℚ) :
    ∀ (cs : List (ℚ × ℚ)) (idx : ℕ),
      findBand cs idx low high = "band_other" ∨
      ∃ n : ℕ, findBand cs idx low high = "band_" ++ toString n := by
  intro cs
  induction cs with
  | nil => intro idx; exact Or.inl rfl
  | cons c rest ih =>
    intro idx
    unfold findBand
    by_cases hc : bandContains c low high = true
    · rw [if_pos hc]
      exact Or.inr ⟨idx + 1, rfl⟩
    · rw [if_neg hc]
      exact ih (idx + 1)

/-- C8: for every canonical TDCC bucket label and each of the three
classification modes (quantity, amount with a positive price, custom with
a non-empty range list), `classify_bucket(infer_bucket_range(label), spec)`
returns a non-empty category name — in particular it never raises and
never falls through to the `unknown` sentinel of an unrecognised mode. -/
theorem classify_canonical_total (label : String)
    (hl : label ∈ canonicalLabels) (p : ℚ) (hp : 0 < p)
    (cs : List (ℚ × ℚ)) (hcs : cs ≠ []) :
    (classifyBucket (inferBucketRange label) ⟨"quantity", none, none⟩ ≠ "" ∧
      classifyBucket (inferBucketRange label) ⟨"quantity", none, none⟩ ≠ "unknown") ∧
    (classifyBucket (inferBucketRange label) ⟨"amount", some p, none⟩ ≠ "" ∧
      classifyBucket (inferBucketRange label) ⟨"amount", some p, none⟩ ≠ "unknown") ∧
    (classifyBucket (inferBucketRange label) ⟨"custom", none, some cs⟩ ≠ "" ∧
      classifyBucket (inferBucketRange label) ⟨"custom", none, some cs⟩ ≠ "unknown") := by
  refine ⟨?_, ?_, ?_⟩
  · rcases classifyBucket_quantity_cases (inferBucketRange label) none none with
      h | h | h <;> rw [h] <;> exact ⟨by decide, by decide⟩
  · rcases classifyBucket_amount_cases (inferBucketRange label) (some p) none with
      h | h | h | h <;> rw [h] <;> exact ⟨by decide, by decide⟩
  · cases cs with
    | nil => exact absurd rfl hcs
    | cons c rest =>
      have hcb : classifyBucket (inferBucketRange label)
          ⟨"custom", none, some (c :: rest)⟩ =
          findBand (c :: rest) 0 (inferBucketRange label).1
            (inferBucketRange label).2 := by
        unfold classifyBucket
        rw [if_neg (show ¬ (("custom" : String) = "quantity") by decide),
          if_neg (show ¬ (("custom" : String) = "amount") by decide),
          if_pos rfl]
      rw [hcb]
      rcases findBand_cases (inferBucketRange label).1 (inferBucketRange label).2
          (c :: rest) 0 with h | ⟨n, h⟩
      · rw [h]; exact ⟨by decide, by decide⟩
      · rw [h]; exact ⟨(band_name_ne n).2, (band_name_ne n).1⟩

/-- Witness for `classify_canonical_total`: the canonical label `1-999`
with price 100 and the single custom range `[0, 400000]`. -/
theorem classify_canonical_total_witness :
    ("1-999" ∈ canonicalLabels) ∧ ((0 : ℚ) < 100) ∧
    (([((0 : ℚ), (400000 : ℚ))] : List (ℚ × ℚ)) ≠ []) ∧
    ((classifyBucket (inferBucketRange "1-999") ⟨"quantity", none, none⟩ ≠ "" ∧
      classifyBucket (inferBucketRange "1-999") ⟨"quantity", none, none⟩ ≠ "unknown") ∧
    (classifyBucket (inferBucketRange "1-999") ⟨"amount", some 100, none⟩ ≠ "" ∧
      classifyBucket (inferBucketRange "1-999") ⟨"amount", some 100, none⟩ ≠ "unknown") ∧
    (classifyBucket (inferBucketRange "1-999") ⟨"custom", none, some [(0, 400000)]⟩ ≠ "" ∧
      classifyBucket (inferBucketRange "1-999") ⟨"custom", none, some [(0, 400000)]⟩ ≠ "unknown")) :=
  ⟨by decide, by decide, by decide,
    classify_canonical_total "1-999" (by decide) 100 (by decide)
      [(0, 400000)] (by decide)⟩
/-- C7 counterexample: the canonical open-ended label `1000001+` is not
parseable by `infer_bucket_range` (no regex accepts a trailing `+`), so it
yields the sentinel range `(0.0, 0.0)` — which quantity-mode classification
then assigns to the numeric category `retail`, not to the `unknown`
sentinel. -/
theorem unparseable_label_counterexample :
    inferBucketRange "1000001+" = (0, some 0) ∧
    classifyBucket (inferBucketRange "1000001+")
      ⟨"quantity", none, none⟩ = "retail" ∧
    ("retail" : String) ≠ "unknown" := by
  decide

/-- C7 (amended): `infer_bucket_range` accepts `>= A`, `A-B` (also with `~`
or `–` separators) and bare-integer labels, expanding `萬` and stripping
commas; it does not accept `A+` or `A以上`, and every label it cannot parse
yields the range `(0.0, 0.0)`, which the classifier files under a numeric
category (`retail` in quantity mode, since `0 ≤ 400000`) — in quantity mode
no label whatsoever is ever routed to the `unknown` sentinel. -/
theorem bucket_label_parser_characterization :
    (∀ (label : String) (p : Option ℚ) (c : Option (List (ℚ × ℚ))),
      classifyBucket (inferBucketRange label) ⟨"quantity", p, c⟩ ≠ "unknown") ∧
    inferBucketRange "1000001+" = (0, some 0) ∧
    inferBucketRange "1,000,001以上" = (0, some 0) ∧
    inferBucketRange ">= 1000001" = (1000001, none) ∧
    inferBucketRange "1-999" = (1, some 999) ∧
    inferBucketRange "100萬" = (1000000, some 1000000) ∧
    classifyBucket ((0 : ℚ), some (0 : ℚ)) ⟨"quantity", none, none⟩ = "retail" := by
  refine ⟨?_, by decide, by decide, by decide, by decide, by decide, by decide⟩
  intro label p c
  rcases classifyBucket_quantity_cases (inferBucketRange label) p c with
    h | h | h <;> rw [h] <;> decide
/-- C9 counterexample: a custom-mode request with no usable range list
(`parse_custom_bands` returns `None` for an empty argument; an explicit
empty list behaves the same) passes the pre-load validation of `main` —
`specRejected` is `false` — and processing continues, classifying every
bucket as `unknown` and producing output instead of failing fast. -/
theorem fail_fast_counterexample :
    specRejected ⟨"custom", none, none⟩ = false ∧
    specRejected ⟨"custom", none, some []⟩ = false ∧
    classifyBucket ((1 : ℚ), some (999 : ℚ)) ⟨"custom", none, some []⟩ = "unknown" ∧
    classifyBucket ((1 : ℚ), some (999 : ℚ)) ⟨"custom", none, none⟩ = "unknown" := by
  decide

/-- C9 (amended): the only classification-spec validation performed before
any table loading in `main` is the amount-mode price check — a request is
rejected fail-fast iff its mode is `amount` and its price is missing or
non-positive.  A custom-mode request with an empty (or missing) range list
is not rejected: it proceeds through table loading and aggregation, with
`classify_bucket` assigning every bucket the `unknown` sentinel. -/
theorem fail_fast_only_amount_price (spec : CategorySpec) :
    (specRejected spec = true ↔
      spec.mode = "amount" ∧
        (spec.price = none ∨ ∃ p, spec.price = some p ∧ p ≤ 0)) ∧
    (∀ (r : ℚ × Option ℚ) (pr : Option ℚ),
      classifyBucket r ⟨"custom", pr, none⟩ = "unknown" ∧
      classifyBucket r ⟨"custom", pr, some []⟩ = "unknown") := by
  constructor
  · unfold specRejected
    rcases spec with ⟨mode, price, custom⟩
    cases price with
    | none => simp
    | some p =>
      simp only [Bool.and_eq_true, beq_iff_eq, decide_eq_true_eq]
      constructor
      · rintro ⟨h1, h2⟩
        exact ⟨h1, Or.inr ⟨p, rfl, h2⟩⟩
      · rintro ⟨h1, h2 | ⟨q, hq, hq2⟩⟩
        · exact absurd h2 (by simp)
        · exact ⟨h1, by injection hq with hq3; exact hq3 ▸ hq2⟩
  · intro r pr
    constructor <;>
    · unfold classifyBucket
      rw [if_neg (show ¬ (("custom" : String) = "quantity") by decide),
        if_neg (show ¬ (("custom" : String) = "amount") by decide),
        if_pos rfl]
/-- Summing an indicator map over a duplicate-free list that contains the
marked element yields the marked weight. -/
theorem sum_map_ite_single :
    ∀ (cats : List String) (b : String) (w : ℚ), cats.Nodup → b ∈ cats →
      (cats.map fun c => if b = c then w else 0).sum = w := by
  intro cats
  induction cats with
  | nil => intro b w _ hb; simp at hb
  | cons c cs ih =>
    intro b w hnd hb
    rw [List.map_cons, List.sum_cons]
    rcases List.mem_cons.mp hb with rfl | hbc
    · rw [if_pos rfl]
      have hnotin : b ∉ cs := (List.nodup_cons.mp hnd).1
      have hzero : (cs.map fun c2 => if b = c2 then w else 0).sum = 0 := by
        apply List.sum_eq_zero
        intro x hx
        rcases List.mem_map.mp hx with ⟨c2, hc2, rfl⟩
        rw [if_neg]
        rintro rfl
        exact hnotin hc2
      rw [hzero, add_zero]
    · have hbc2 : b ≠ c := by
        rintro rfl
        exact (List.nodup_cons.mp hnd).1 hbc
      rw [if_neg hbc2, zero_add]
      exact ih b w (List.nodup_cons.mp hnd).2 hbc

/-- Pointwise sums distribute over a list sum. -/
theorem sum_map_add_distrib {α : Type} (l : List α) (f g : α → ℚ) :
    (l.map fun a => f a + g a).sum = (l.map f).sum + (l.map g).sum := by
  induction l with
  | nil => simp
  | cons a t ih =>
    simp only [List.map_cons, List.sum_cons, ih]
    ring

/-- Partitioning a row by the fibers of `g` over a duplicate-free covering
list of categories and summing each fiber recovers the row's total. -/
theorem sum_fiberwise {α : Type} (g : α → String) (v : α → ℚ) :
    ∀ (row : List α) (cats : List String), cats.Nodup →
      (∀ x ∈ row, g x ∈ cats) →
      (cats.map fun c => ((row.filter fun x => g x = c).map v).sum).sum
        = (row.map v).sum := by
  intro row
  induction row with
  | nil =>
    intro cats _ _
    simp only [List.filter_nil, List.map_nil, List.sum_nil]
    apply List.sum_eq_zero
    intro x hx
    rcases List.mem_map.mp hx with ⟨c, _, rfl⟩
    rfl
  | cons a t ih =>
    intro cats hnd hcov
    have key : ∀ c, (((a :: t).filter fun x => g x = c).map v).sum
        = (if g a = c then v a else 0)
          + ((t.filter fun x => g x = c).map v).sum := by
      intro c
      rw [List.filter_cons]
      by_cases h : g a = c
      · simp [h]
      · simp [h]
    rw [List.map_congr_left fun c _ => key c, sum_map_add_distrib,
      sum_map_ite_single cats (g a) (v a) hnd (hcov a (List.mem_cons_self _ _)),
      ih cats hnd fun x hx => hcov x (List.mem_cons_of_mem _ hx)]
    simp

/-- C3: aggregation conserves sums — for any date row with no missing
values and any classifier `f` (which, being a function, assigns each raw
column to exactly one category, the grouping performed by
`df.groupby(col_to_cat, axis=1)`), the sum of the reduced row's cells over
all categories equals the sum of the raw row's cells over all columns. -/
theorem aggregation_conservation (row : List (String × ℚ))
    (f : String → String) :
    sumRow (reduceRow row f) = sumRow row := by
  unfold reduceRow sumRow
  rw [List.map_map]
  exact sum_fiberwise (fun p : String × ℚ => f p.1) (fun p => p.2) row
    ((row.map fun p => f p.1).dedup) (List.nodup_dedup _)
    (fun x hx => List.mem_dedup.mpr (List.mem_map_of_mem _ hx))
/-- C4 counterexample: a category whose contributing columns are all
missing gets the number 0, not a missing marker — the grouped pandas sum
(`skipna=True`, `min_count=0`) of two NaN cells is `0.0`, and
`parse_tdcc_data` likewise turns an absent pivot cell into 0 via
`fillna(0)`. -/
theorem missing_value_counterexample :
    reduceRowOpt [("600001-800000", none), ("800001-1000000", none)]
      (fun _ => "whale") = [("whale", 0)] ∧
    pivotCell [((1 : Int), "1-999", (5 : ℚ))] 1 "1000-5000" = none ∧
    fillna0 (pivotCell [((1 : Int), "1-999", (5 : ℚ))] 1 "1000-5000") = 0 := by
  decide

/-- C4 (amended): if every raw column assigned to a category holds the
missing marker at a date, the reduced cell for that category is the number
zero — `groupby(...).sum()` skips NaNs and, with its default
`min_count=0`, returns 0 for an all-NaN group; and `parse_tdcc_data`
explicitly replaces missing pivot cells by 0 with `fillna(0)`. -/
theorem all_missing_reduces_to_zero (row : List (String × Option ℚ))
    (f : String → String) (cat : String)
    (hc : cat ∈ row.map fun p => f p.1)
    (hm : ∀ p ∈ row, f p.1 = cat → p.2 = none) :
    (cat, (0 : ℚ)) ∈ reduceRowOpt row f ∧ fillna0 none = 0 := by
  refine ⟨?_, rfl⟩
  unfold reduceRowOpt
  have hmem : cat ∈ (row.map fun p => f p.1).dedup := List.mem_dedup.mpr hc
  have hnil : ((row.filter fun p => f p.1 = cat).filterMap fun p => p.2) = [] := by
    rw [List.filterMap_eq_nil_iff]
    intro p hp
    have h1 := (List.mem_filter.mp hp).1
    have h2 := (List.mem_filter.mp hp).2
    exact hm p h1 (by simpa using h2)
  refine List.mem_map.mpr ⟨cat, hmem, ?_⟩
  rw [hnil]
  rfl

/-- Witness for `all_missing_reduces_to_zero`: one column `a` mapped to
category `whale`, missing at the date; the reduced `whale` cell is 0. -/
theorem all_missing_reduces_to_zero_witness :
    ("whale" ∈ ([("a", (none : Option ℚ))].map fun p => (fun _ => "whale") p.1)) ∧
    (∀ p ∈ [("a", (none : Option ℚ))], (fun _ => "whale") p.1 = "whale" → p.2 = none) ∧
    (("whale", (0 : ℚ)) ∈ reduceRowOpt [("a", none)] (fun _ => "whale") ∧
      fillna0 none = 0) :=
  ⟨by decide, by decide,
    all_missing_reduces_to_zero [("a", none)] (fun _ => "whale") "whale"
      (by decide) (by decide)⟩
